import Mathlib

/-!
Verification of the AHK Manipulator backend core.

The definitions below are a shallow embedding of the Python sources
`backend/core.py`, `backend/db_handlers.py` and `backend/ahk_integration.py`.
Python scalar values (None / bool / int / float / str and the JSON-like
dict / list containers) are modelled by the inductive `JVal`; Python floats
are modelled as exact rationals.  The engine's shared `variables` dict can
additionally hold the `TaskBoard` back-reference stored at key `_board`,
so variable values are `VarVal` (a `JVal` or a board).  Handlers are pure
functions from an action and the shared variables to a result and updated
variables; real handlers also perform port effects and timed suspensions, which the
claims treated here do not depend on.  Wall-clock measurement
(`time.perf_counter`) is an external input and enters the model as an
oracle giving the measured handler execution time in milliseconds.
-/

namespace AHK

/-- Python values as they occur in action metadata, engine variables and the
JSON board documents.  `float` models a Python float as an exact rational. -/
inductive JVal where
  | null
  | bool (b : Bool)
  | int (n : Int)
  | float (q : ℚ)
  | str (s : String)
  | dict (fields : List (String × JVal))
  | list (elems : List JVal)

/-- Python truthiness (`bool(v)`).  Mirrors: None/False/0/""/empty containers
are falsy, everything else truthy.  `float` is falsy iff it equals 0. -/
def JVal.truthy : JVal → Bool
  | .null => false
  | .bool b => b
  | .int n => decide (n ≠ 0)
  | .float q => decide (q ≠ 0)
  | .str s => decide (s ≠ "")
  | .dict fs => !fs.isEmpty
  | .list xs => !xs.isEmpty

/-- Python `v == s` where `s` is a string: true only when `v` is an equal
string (values of other types never equal a str). -/
def JVal.eqStr (v : JVal) (s : String) : Bool :=
  match v with
  | .str t => decide (t = s)
  | _ => false

mutual

/-- Python `repr(v)`.  String escaping and float formatting are approximated
(strings are wrapped in single quotes verbatim, rationals printed exactly);
no modelled claim depends on the container or float cases. -/
def JVal.pyRepr : JVal → String
  | .null => "None"
  | .bool true => "True"
  | .bool false => "False"
  | .int n => toString n
  | .float q => toString q
  | .str s => "'" ++ s ++ "'"
  | .dict fs => "\x7b" ++ JVal.pyReprFields fs ++ "\x7d"
  | .list xs => "[" ++ JVal.pyReprElems xs ++ "]"

/-- Comma-separated `'key': repr(value)` rendering of dict items. -/
def JVal.pyReprFields : List (String × JVal) → String
  | [] => ""
  | [(k, v)] => "'" ++ k ++ "': " ++ JVal.pyRepr v
  | (k, v) :: rest => "'" ++ k ++ "': " ++ JVal.pyRepr v ++ ", " ++ JVal.pyReprFields rest

/-- Comma-separated `repr(value)` rendering of list items. -/
def JVal.pyReprElems : List JVal → String
  | [] => ""
  | [v] => JVal.pyRepr v
  | v :: rest => JVal.pyRepr v ++ ", " ++ JVal.pyReprElems rest

end

/-- Python `str(v)`: like repr except a string is rendered without quotes. -/
def JVal.pyToStr : JVal → String
  | .str s => s
  | v => v.pyRepr

/-- Python `int(v)`.  Integers pass through, booleans become 0/1 and numeric
strings parse; on the remaining shapes Python raises (those shapes never
reach an `int(...)` conversion in the modelled code), here they map to 0. -/
def JVal.pyInt : JVal → Int
  | .int n => n
  | .bool b => if b then 1 else 0
  | .str s => (s.toInt?).getD 0
  | _ => 0

/-- Python `float(v)` restricted to the shapes the modelled code feeds it;
string parsing is not modelled (no claim depends on it). -/
def JVal.pyFloat : JVal → ℚ
  | .int n => (n : ℚ)
  | .float q => q
  | .bool b => if b then 1 else 0
  | _ => 0

/-- `d.get(key)` on a Python dict modelled as an association list. -/
def alistGet {α : Type} : List (String × α) → String → Option α
  | [], _ => none
  | (k, v) :: rest, key => if k = key then some v else alistGet rest key

/-- `d[key] = value` on a Python dict: replaces in place, else appends
(Python dicts keep insertion order). -/
def alistSet {α : Type} : List (String × α) → String → α → List (String × α)
  | [], key, v => [(key, v)]
  | (k, w) :: rest, key, v =>
      if k = key then (key, v) :: rest else (k, w) :: alistSet rest key v

theorem alistGet_set_self {α : Type} (m : List (String × α)) (k : String) (v : α) :
    alistGet (alistSet m k v) k = some v := by
  induction m with
  | nil => simp [alistSet, alistGet]
  | cons p rest ih =>
      obtain ⟨k', w⟩ := p
      by_cases h : k' = k
      · simp [alistSet, h, alistGet]
      · simp [alistSet, h, alistGet, ih]

/-- `ActionType` enumeration from `backend/core.py`. -/
inductive ActionType where
  | MOUSE_CLICK
  | MOUSE_MOVE
  | KEY_PRESS
  | WAIT_TIME
  | WAIT_PIXEL_COLOR
  | WAIT_PIXEL_CHANGE
  | WAIT_IMAGE
  | WAIT_TEXT
  | CONDITIONAL
  | LOOP
  | SCREENSHOT
  | LOG
  | DB_SEARCH
  | DB_GET_VALUE
  | DB_ITERATE
  | DB_SAVE
  | CHECK_VALUE
  | RUN_ROW
deriving DecidableEq

/-- The enum member's `.name`. -/
def ActionType.name : ActionType → String
  | .MOUSE_CLICK => "MOUSE_CLICK"
  | .MOUSE_MOVE => "MOUSE_MOVE"
  | .KEY_PRESS => "KEY_PRESS"
  | .WAIT_TIME => "WAIT_TIME"
  | .WAIT_PIXEL_COLOR => "WAIT_PIXEL_COLOR"
  | .WAIT_PIXEL_CHANGE => "WAIT_PIXEL_CHANGE"
  | .WAIT_IMAGE => "WAIT_IMAGE"
  | .WAIT_TEXT => "WAIT_TEXT"
  | .CONDITIONAL => "CONDITIONAL"
  | .LOOP => "LOOP"
  | .SCREENSHOT => "SCREENSHOT"
  | .LOG => "LOG"
  | .DB_SEARCH => "DB_SEARCH"
  | .DB_GET_VALUE => "DB_GET_VALUE"
  | .DB_ITERATE => "DB_ITERATE"
  | .DB_SAVE => "DB_SAVE"
  | .CHECK_VALUE => "CHECK_VALUE"
  | .RUN_ROW => "RUN_ROW"

/-- `ActionType[name]`: lookup of an enum member by name (`none` models the
KeyError branch). -/
def ActionType.ofName? : String → Option ActionType
  | "MOUSE_CLICK" => some .MOUSE_CLICK
  | "MOUSE_MOVE" => some .MOUSE_MOVE
  | "KEY_PRESS" => some .KEY_PRESS
  | "WAIT_TIME" => some .WAIT_TIME
  | "WAIT_PIXEL_COLOR" => some .WAIT_PIXEL_COLOR
  | "WAIT_PIXEL_CHANGE" => some .WAIT_PIXEL_CHANGE
  | "WAIT_IMAGE" => some .WAIT_IMAGE
  | "WAIT_TEXT" => some .WAIT_TEXT
  | "CONDITIONAL" => some .CONDITIONAL
  | "LOOP" => some .LOOP
  | "SCREENSHOT" => some .SCREENSHOT
  | "LOG" => some .LOG
  | "DB_SEARCH" => some .DB_SEARCH
  | "DB_GET_VALUE" => some .DB_GET_VALUE
  | "DB_ITERATE" => some .DB_ITERATE
  | "DB_SAVE" => some .DB_SAVE
  | "CHECK_VALUE" => some .CHECK_VALUE
  | "RUN_ROW" => some .RUN_ROW
  | _ => none

theorem ActionType.ofName_name (t : ActionType) : ActionType.ofName? t.name = some t := by
  cases t <;> rfl

/-- Screen coordinates (`Coordinates` dataclass). -/
structure Coordinates where
  x : Int
  y : Int
deriving DecidableEq

/-- `Coordinates.to_dict`. -/
def Coordinates.to_dict (c : Coordinates) : List (String × JVal) :=
  [("x", .int c.x), ("y", .int c.y)]

/-- Read an int-valued key with a default.  Python performs no type check
(`data.get(k, d)` is stored as is); non-integer present values are outside
this typed model and map to the default. -/
def jGetInt (d : List (String × JVal)) (key : String) (dflt : Int) : Int :=
  match alistGet d key with
  | some (.int n) => n
  | _ => dflt

/-- Read a str-valued key with a default (same typing caveat as `jGetInt`). -/
def jGetStr (d : List (String × JVal)) (key : String) (dflt : String) : String :=
  match alistGet d key with
  | some (.str s) => s
  | _ => dflt

/-- Read a bool-valued key with a default (same typing caveat as `jGetInt`). -/
def jGetBool (d : List (String × JVal)) (key : String) (dflt : Bool) : Bool :=
  match alistGet d key with
  | some (.bool b) => b
  | _ => dflt

/-- `Coordinates.from_dict`. -/
def Coordinates.from_dict (d : List (String × JVal)) : Coordinates :=
  ⟨jGetInt d ("x") 0, jGetInt d ("y") 0⟩

/-- Pixel color with a per-channel tolerance (`Color` dataclass). -/
structure Color where
  r : Int
  g : Int
  b : Int
  tolerance : Int := 10
deriving DecidableEq

/-- `Color.matches`: every channel differs from `other` by at most the
receiver's tolerance. -/
def Color.matches (c other : Color) : Bool :=
  decide (|c.r - other.r| ≤ c.tolerance) &&
    decide (|c.g - other.g| ≤ c.tolerance) &&
      decide (|c.b - other.b| ≤ c.tolerance)

/-- `Color.to_dict`. -/
def Color.to_dict (c : Color) : List (String × JVal) :=
  [("r", .int c.r), ("g", .int c.g), ("b", .int c.b), ("tolerance", .int c.tolerance)]

/-- `Color(**data)`: keyword construction.  Python raises on unexpected
keywords and on missing r/g/b (modelled by `none`); channel values are not
type-checked by Python, non-integer values fall outside this typed model. -/
def Color.ofKwargs (d : List (String × JVal)) : Option Color :=
  if d.all (fun p => p.1 = "r" || p.1 = "g" || p.1 = "b" || p.1 = "tolerance") then
    match alistGet d ("r"), alistGet d ("g"), alistGet d ("b") with
    | some (.int r), some (.int g), some (.int b) =>
        match alistGet d ("tolerance") with
        | some (.int t) => some ⟨r, g, b, t⟩
        | none => some ⟨r, g, b, 10⟩
        | some _ => none
    | _, _, _ => none
  else none

/-- One automation step (`Action` dataclass).  The open-ended `metadata`
mapping is an association list of Python values. -/
structure Action where
  id : String
  action_type : ActionType
  name : String
  enabled : Bool := true
  delay_before_ms : Int := 0
  delay_after_ms : Int := 0
  repeat_count : Int := 1
  coordinates : Option Coordinates := none
  color : Option Color := none
  key : Option String := none
  mouse_button : String := "left"
  metadata : List (String × JVal) := []

/-- `Action.to_dict` (field order as in the source). -/
def Action.to_dict (a : Action) : List (String × JVal) :=
  [("id", .str a.id),
   ("action_type", .str a.action_type.name),
   ("name", .str a.name),
   ("enabled", .bool a.enabled),
   ("delay_before_ms", .int a.delay_before_ms),
   ("delay_after_ms", .int a.delay_after_ms),
   ("repeat_count", .int a.repeat_count),
   ("coordinates", match a.coordinates with
                   | some c => .dict c.to_dict
                   | none => .null),
   ("color", match a.color with
             | some c => .dict c.to_dict
             | none => .null),
   ("mouse_button", .str a.mouse_button),
   ("key", match a.key with
           | some k => .str k
           | none => .null),
   ("metadata", .dict a.metadata)]

/-- `Action.from_dict`.  `none` models an uncaught Python exception (a truthy
non-dict under "coordinates"/"color", or bad keywords for `Color`); the
KeyError on an unknown action_type name is caught in the source and falls
back to MOUSE_CLICK. -/
def Action.from_dict (d : List (String × JVal)) : Option Action := do
  let action_type : ActionType :=
    match alistGet d ("action_type") with
    | some (.str s) => (ActionType.ofName? s).getD .MOUSE_CLICK
    | some _ => .MOUSE_CLICK
    | none => .MOUSE_CLICK
  let coords : Option Coordinates ←
    match alistGet d ("coordinates") with
    | some (.dict f) => if f.isEmpty then some none else some (some (Coordinates.from_dict f))
    | some v => if v.truthy then none else some none
    | none => some none
  let col : Option Color ←
    match alistGet d ("color") with
    | some (.dict f) =>
        if f.isEmpty then some none
        else match Color.ofKwargs f with
             | some c => some (some c)
             | none => none
    | some v => if v.truthy then none else some none
    | none => some none
  some
    { id := jGetStr d ("id") ("")
      action_type := action_type
      name := jGetStr d ("name") ("")
      enabled := jGetBool d ("enabled") true
      delay_before_ms := jGetInt d ("delay_before_ms") 0
      delay_after_ms := jGetInt d ("delay_after_ms") 0
      repeat_count := jGetInt d ("repeat_count") 1
      coordinates := coords
      color := col
      mouse_button := jGetStr d ("mouse_button") ("left")
      key := match alistGet d ("key") with
             | some (.str s) => some s
             | _ => none
      metadata := match alistGet d ("metadata") with
                  | some (.dict f) => f
                  | _ => [] }

/-- A named, enable-able row of actions (`TaskRow` dataclass). -/
structure TaskRow where
  id : String
  name : String
  actions : List Action := []
  enabled : Bool := true

/-- `TaskRow.to_dict`. -/
def TaskRow.to_dict (r : TaskRow) : List (String × JVal) :=
  [("id", .str r.id),
   ("name", .str r.name),
   ("enabled", .bool r.enabled),
   ("actions", .list (r.actions.map (fun a => .dict a.to_dict)))]

/-- The board (`TaskBoard` dataclass); the datetime timestamps are carried as
their isoformat strings. -/
structure TaskBoard where
  id : String
  name : String
  rows : List TaskRow := []
  created_at : String := ""
  modified_at : String := ""

/-- `TaskBoard.get_all_actions`: the flattened, filtered view the engine
executes (a for-loop accumulating enabled actions of enabled rows). -/
def TaskBoard.get_all_actions (b : TaskBoard) : List Action :=
  b.rows.foldl
    (fun acc row =>
      if row.enabled then acc ++ row.actions.filter (fun a => a.enabled) else acc)
    []

/-- `TaskBoard.to_dict`. -/
def TaskBoard.to_dict (b : TaskBoard) : List (String × JVal) :=
  [("id", .str b.id),
   ("name", .str b.name),
   ("created_at", .str b.created_at),
   ("modified_at", .str b.modified_at),
   ("rows", .list (b.rows.map (fun r => .dict r.to_dict)))]

/-- Per-action outcome (`ExecutionResult` dataclass). -/
structure ExecutionResult where
  success : Bool
  action_id : String
  action_name : String
  message : String := ""
  error : Option String := none
deriving DecidableEq

/-- A value of the engine's shared `variables` dict: a Python value, or the
`TaskBoard` back-reference stored under `_board`. -/
inductive VarVal where
  | j (v : JVal)
  | board (b : TaskBoard)

/-- The shared mutable `variables` mapping. -/
abbrev Variables := List (String × VarVal)

/-- Python truthiness of a variable value (a dataclass instance is truthy). -/
def VarVal.truthy : VarVal → Bool
  | .j v => v.truthy
  | .board _ => true

/-- Python `str()` of a variable value.  The dataclass repr of a board is
abbreviated; no modelled claim depends on it. -/
def VarVal.pyToStr : VarVal → String
  | .j v => v.pyToStr
  | .board b => "TaskBoard(id='" ++ b.id ++ "')"

/-- Python `int()` of a variable value (`int(<dataclass>)` raises; boards
never reach this conversion in the modelled code). -/
def VarVal.pyInt : VarVal → Int
  | .j v => v.pyInt
  | .board _ => 0

/-- The screen capability port (`IScreenService`), restricted to the members
the conditional handler consumes.  `find_image` receives the raw metadata
value for the path, as the Python call does. -/
structure ScreenPort where
  get_pixel_color : Int → Int → Option Color
  find_image : JVal → ℚ → Option Coordinates

/-- A handler's `execute`: reads the action and the shared variables,
returns a result and the updated shared variables.  Port effects and the
handler's internal suspensions are not observable at this level. -/
abbrev HandlerFn := Action → Variables → ExecutionResult × Variables

/-- `ActionHandlerRegistry.get_handler`: a dict lookup that may miss. -/
abbrev Registry := ActionType → Option HandlerFn

/-- `action.metadata.get(key, default)`. -/
def mdGet (a : Action) (key : String) (dflt : JVal) : JVal :=
  (alistGet a.metadata key).getD dflt

/-- The condition evaluation inside `ConditionalHandler.execute`: one of
variable_equals / image_exists / pixel_color, defaulting to False.  The
image/pixel branches also require the screen port (and coordinates) to be
present, exactly as the Python `elif` guards do. -/
def ConditionalHandler.condResult (screen : Option ScreenPort) (a : Action)
    (vars : Variables) : Bool :=
  let condition_type := mdGet a ("condition_type") (.str ("variable_equals"))
  if condition_type.eqStr ("variable_equals") then
    let var_name := mdGet a ("variable_name") (.str (""))
    let looked : VarVal :=
      match var_name with
      | .str s => (alistGet vars s).getD (.j (.str ("")))
      | _ => .j (.str (""))
    decide (looked.pyToStr = (mdGet a ("condition_value") (.str (""))).pyToStr)
  else
    match screen with
    | some sp =>
        if condition_type.eqStr ("image_exists") then
          (sp.find_image (mdGet a ("image_path") (.str ("")))
            (JVal.pyFloat (mdGet a ("confidence") (.float (9 / 10))))).isSome
        else if condition_type.eqStr ("pixel_color") then
          match a.coordinates with
          | some c =>
              match sp.get_pixel_color c.x c.y, a.color with
              | some current, some target => target.matches current
              | _, _ => false
          | none => false
        else false
    | none => false

/-- `ConditionalHandler.execute`: maps the boolean condition through the
`if_true`/`if_false` policies and writes the engine-visible control
signals `_skip_next_count` / `_break_execution` into the shared variables. -/
def ConditionalHandler.execute (screen : Option ScreenPort) : HandlerFn := fun a vars =>
  let if_true := mdGet a ("if_true") (.str ("execute_next"))
  let if_false := mdGet a ("if_false") (.str ("skip_next"))
  let result := ConditionalHandler.condResult screen a vars
  let decision := if result then if_true else if_false
  let vars' :=
    if decision.eqStr ("skip_next") then
      alistSet vars ("_skip_next_count")
        (.j (.int (VarVal.pyInt ((alistGet vars ("_skip_next_count")).getD (.j (.int 0))) + 1)))
    else if decision.eqStr ("break") then
      alistSet vars ("_break_execution") (.j (.bool true))
    else vars
  (⟨true, a.id, a.name,
    "Условие=" ++ (if result then "True" else "False") ++ "; решение=" ++ decision.pyToStr,
    none⟩, vars')

/-- `RunRowHandler.execute` (from `backend/db_handlers.py`): resolves the
target row by id from the shared `_board` variable and, if it is enabled,
dispatches each of its enabled actions through the same registry over the
same shared variables; sub-results are discarded.  A non-board truthy value
under `_board` would raise AttributeError inside the try-block, which the
handler converts to a failure result (message text approximated). -/
def RunRowHandler.execute (reg : Registry) : HandlerFn := fun a vars =>
  let row_id := mdGet a ("row_id") (.str (""))
  match alistGet vars ("_board") with
  | some (VarVal.board board) =>
      match board.rows.find? (fun r => row_id.eqStr r.id) with
      | none =>
          (⟨false, a.id, a.name, "", some ("Строка " ++ row_id.pyToStr ++ " не найдена")⟩, vars)
      | some target_row =>
          if !target_row.enabled then
            (⟨false, a.id, a.name, "Строка " ++ target_row.name ++ " отключена", none⟩, vars)
          else
            (⟨true, a.id, a.name, "Строка " ++ target_row.name ++ " выполнена", none⟩,
             target_row.actions.foldl
               (fun vs ra =>
                 if ra.enabled then
                   match reg ra.action_type with
                   | some h => (h ra vs).2
                   | none => vs
                 else vs)
               vars)
  | some (VarVal.j v) =>
      if v.truthy then
        (⟨false, a.id, a.name, "", some ("Ошибка запуска строки: AttributeError")⟩, vars)
      else (⟨false, a.id, a.name, "", some ("Доска не доступна для запуска строки")⟩, vars)
  | none =>
      (⟨false, a.id, a.name, "", some ("Доска не доступна для запуска строки")⟩, vars)

/-- The engine's per-run mutable state: the running flag, the shared
variables and the accumulated results.  The pause flag gates a poll loop
that changes no state and is elided from the sequential model. -/
structure EngineState where
  is_running : Bool
  vars : Variables
  results : List ExecutionResult

/-- Outcome of one `execute_action` call: the returned result, the updated
engine state, and the list of timed suspensions the call performed (in ms). -/
structure StepOut where
  result : ExecutionResult
  state : EngineState
  slept : List ℚ

/-- `_precise_sleep(ms)` as an observable log entry: no suspension for a
non-positive duration. -/
def preciseSleepLog (ms : ℚ) : List ℚ :=
  if ms ≤ 0 then [] else [ms]

/-- `ExecutionEngine.execute_action`.  `elapsed` is the externally measured
handler execution time in milliseconds (`time.perf_counter` difference).
A disabled action and a missing handler return early — in particular their
failure results are NOT appended to the engine's results list; a dispatched
handler's result is appended, and `delay_after_ms` is applied net of the
measured time. -/
def ExecutionEngine.execute_action (reg : Registry) (elapsed : ℚ)
    (σ : EngineState) (a : Action) : StepOut :=
  if !a.enabled then
    ⟨⟨false, a.id, a.name, "Действие отключено", none⟩, σ, []⟩
  else
    let sleptBefore :=
      if 0 < a.delay_before_ms then preciseSleepLog (a.delay_before_ms : ℚ) else []
    match reg a.action_type with
    | none =>
        ⟨⟨false, a.id, a.name, "",
          some ("Обработчик для ActionType." ++ a.action_type.name ++ " не найден")⟩,
         σ, sleptBefore⟩
    | some h =>
        let out := h a σ.vars
        let σ' : EngineState := ⟨σ.is_running, out.2, σ.results ++ [out.1]⟩
        let sleptAfter :=
          if 0 < a.delay_after_ms then
            if 0 < (a.delay_after_ms : ℚ) - elapsed then
              preciseSleepLog ((a.delay_after_ms : ℚ) - elapsed)
            else []
          else []
        ⟨out.1, σ', sleptBefore ++ sleptAfter⟩

/-- `int(self.variables.get("_skip_next_count", 0))`. -/
def engineSkipCount (vars : Variables) : Int :=
  VarVal.pyInt ((alistGet vars ("_skip_next_count")).getD (.j (.int 0)))

/-- Truthiness of `self.variables.get("_break_execution")`. -/
def engineBreakRequested (vars : Variables) : Bool :=
  ((alistGet vars ("_break_execution")).map VarVal.truthy).getD false

/-- The for-loop body of `ExecutionEngine.execute_board` over the flattened
action sequence: stop/break checks, skip-count decrement (which produces no
result), then dispatch through `execute_action`.  `els i` supplies the
measured handler time of iteration `i`; the pause poll loop changes no state
and is elided. -/
def ExecutionEngine.board_loop (reg : Registry) (els : Nat → ℚ) :
    EngineState → Nat → List Action → EngineState
  | σ, _, [] => σ
  | σ, i, a :: rest =>
      if !σ.is_running then σ
      else if engineBreakRequested σ.vars then σ
      else
        let skip := engineSkipCount σ.vars
        if 0 < skip then
          ExecutionEngine.board_loop reg els
            ⟨σ.is_running, alistSet σ.vars ("_skip_next_count") (.j (.int (skip - 1))),
             σ.results⟩
            (i + 1) rest
        else
          ExecutionEngine.board_loop reg els
            (ExecutionEngine.execute_action reg (els i) σ a).state (i + 1) rest

set_option linter.unusedVariables false in
/-- `ExecutionEngine.execute_board`: clears the per-run state, seeds the
variables with exactly `_board` and `_running`, runs the flattened sequence,
then lowers both running flags and returns the accumulated results.  The
engine's prior state `e` is entirely reset at entry. -/
def ExecutionEngine.execute_board (reg : Registry) (els : Nat → ℚ)
    (e : EngineState) (b : TaskBoard) : List ExecutionResult × EngineState :=
  let seeded : EngineState :=
    ⟨true, [("_board", VarVal.board b), ("_running", VarVal.j (.bool true))], []⟩
  let fin := ExecutionEngine.board_loop reg els seeded 0 b.get_all_actions
  let fin2 : EngineState :=
    ⟨false, alistSet fin.vars ("_running") (VarVal.j (.bool false)), fin.results⟩
  (fin2.results, fin2)

/-- One parsed script command (`AhkCommand` dataclass). -/
structure AhkCommand where
  name : String
  args : List String
  raw : String
  line_no : Nat

/-- A parsed function block (`AhkFunction` dataclass). -/
structure AhkFunction where
  name : String
  params : List String
  body : List AhkCommand := []

/-- The parser's structured script model (`AhkScript` dataclass); the dicts
are association lists in insertion order. -/
structure AhkScript where
  requires : Option String := none
  globals : List (String × String) := []
  top_level : List AhkCommand := []
  hotkeys : List (String × List AhkCommand) := []
  functions : List (String × AhkFunction) := []

/-- A leveled validation/execution message (`AhkDiagnostic` dataclass). -/
structure AhkDiagnostic where
  level : String
  message : String
  line_no : Nat := 0
deriving DecidableEq

/-- `AhkValidationResult` dataclass. -/
structure AhkValidationResult where
  is_valid : Bool
  diagnostics : List AhkDiagnostic := []

/-- `AhkValidator.WINDOWS_ONLY_COMMANDS`. -/
def WINDOWS_ONLY_COMMANDS : List String :=
  ["ComObject", "WinExist", "WinActivate", "ControlSend", "ControlClick"]

/-- `AhkValidator.POTENTIALLY_DANGEROUS`. -/
def POTENTIALLY_DANGEROUS : List String :=
  ["Run", "RunWait", "DllCall", "RegWrite", "RegDelete"]

/-- Python `v.startswith(p)` (also `String.startsWith`), implemented over the
character list so that it evaluates by kernel reduction. -/
def pyStartsWith (v p : String) : Bool :=
  decide (v.data.take p.data.length = p.data)

/-- `AhkValidator.validate`: version-directive diagnostics, then per-command
dangerous/platform diagnostics over top-level, hotkey and function bodies;
`is_valid` is the absence of an error-level diagnostic.  `isWindows` models
`platform.system() == "Windows"`. -/
def AhkValidator.validate (isWindows : Bool) (script : AhkScript) : AhkValidationResult :=
  let versionDiags : List AhkDiagnostic :=
    match script.requires with
    | none => [⟨"warning", "Missing #Requires AutoHotkey v2.0 directive", 0⟩]
    | some v =>
        if !(pyStartsWith v ("2")) then [⟨"error", "Unsupported AHK version: " ++ v, 0⟩]
        else []
  let all_cmds : List AhkCommand :=
    script.top_level ++ (script.hotkeys.map Prod.snd).flatten
      ++ (script.functions.map (fun p => p.2.body)).flatten
  let cmdDiags := all_cmds.flatMap (fun cmd =>
    (if POTENTIALLY_DANGEROUS.contains cmd.name then
       [⟨"warning", "Potentially dangerous command: " ++ cmd.name, cmd.line_no⟩]
     else [])
    ++ (if WINDOWS_ONLY_COMMANDS.contains cmd.name && !isWindows then
          [⟨"info", "Windows-specific command: " ++ cmd.name, cmd.line_no⟩]
        else []))
  let diagnostics := versionDiags ++ cmdDiags
  ⟨!(diagnostics.any (fun d => d.level = "error")), diagnostics⟩

/-- `AhkExecutionResult` dataclass (the optional board back-reference of the
emulated mode is not needed by the modelled claims and is omitted). -/
structure AhkExecutionResult where
  success : Bool
  mode : String
  return_code : Int := 0
  stdout : String := ""
  stderr : String := ""
  diagnostics : List AhkDiagnostic := []
deriving DecidableEq

/-- `Path.parents` of a resolved absolute path modelled as its component
list: the set of proper prefixes (the filesystem root is `[]`). -/
def pathParents (p : List String) : List (List String) :=
  (List.range p.length).map (fun n => p.take n)

/-- `str(path)` of a resolved absolute POSIX path. -/
def pathPyStr (p : List String) : String :=
  "/" ++ String.intercalate ("/") p

/-- `AhkRunner.execute_file` up to mode resolution.  Path resolution
(`expanduser().resolve()`) is an external filesystem effect, so the model
receives the already-resolved path and root as component lists, and the
parser's output as an oracle (`script`); the second component of the result
records whether the parser was invoked.  Everything after a successful
validation (mode resolution, native subprocess, emulation) is abstracted
into `proceed`, which none of the modelled claims constrain. -/
def AhkRunner.execute_file (resolvedPath : List String)
    (resolvedRoot : Option (List String)) (script : AhkScript) (isWindows : Bool)
    (proceed : AhkScript → List AhkDiagnostic → AhkExecutionResult) :
    AhkExecutionResult × Bool :=
  let afterContainment : AhkExecutionResult × Bool :=
    let validation := AhkValidator.validate isWindows script
    if !validation.is_valid then
      (⟨false, "none", 0, "", "", validation.diagnostics⟩, true)
    else
      (proceed script validation.diagnostics, true)
  match resolvedRoot with
  | some root =>
      if root ∉ pathParents resolvedPath ∧ resolvedPath ≠ root then
        (⟨false, "none", 0, "", "",
          [⟨"error", "Path outside allowed root: " ++ pathPyStr resolvedPath, 0⟩]⟩, false)
      else afterContainment
  | none => afterContainment

/-- `CONFIG["version"]`. -/
def CONFIG_version : String := "0.3.0"

/-- `CONFIG["app_name"]`. -/
def CONFIG_app_name : String := "AHK Manipulator"

/-- `BackendApplication.save_board`: the JSON document written to disk
(file writing itself is an external effect), i.e. `board.to_dict()` plus the
`version` and `app` tags. -/
def BackendApplication.save_board (b : TaskBoard) : List (String × JVal) :=
  alistSet (alistSet b.to_dict ("version") (.str CONFIG_version)) ("app") (.str CONFIG_app_name)

/-- Sequentially convert each element, failing if any conversion fails (the
for-loop accumulation used by `load_board`). -/
def optionMapList {α β : Type} (g : α → Option β) : List α → Option (List β)
  | [] => some []
  | x :: xs => do
      let y ← g x
      let ys ← optionMapList g xs
      some (y :: ys)

/-- One row of `BackendApplication.load_board`; `none` models an uncaught
exception on a malformed document.  `now` stands in for the fresh
`datetime.now()` defaults of the reconstructed dataclasses.  A missing row
id/name yields None in Python; documents produced by `save_board` always
carry them, and the model defaults to the empty string. -/
def BackendApplication.load_row (v : JVal) : Option TaskRow :=
  match v with
  | .dict f => do
      let actsJ : List JVal ←
        match alistGet f ("actions") with
        | some (.list xs) => some xs
        | none => some []
        | some _ => none
      let acts : List Action ←
        optionMapList
          (fun x =>
            match x with
            | .dict af => Action.from_dict af
            | _ => none)
          actsJ
      some ⟨jGetStr f ("id") (""), jGetStr f ("name") (""), acts, jGetBool f ("enabled") true⟩
  | _ => none

/-- `BackendApplication.load_board` over the parsed JSON document. -/
def BackendApplication.load_board (now : String) (d : List (String × JVal)) :
    Option TaskBoard := do
  let rowsJ : List JVal ←
    match alistGet d ("rows") with
    | some (.list rs) => some rs
    | none => some []
    | some _ => none
  let rows ← optionMapList BackendApplication.load_row rowsJ
  some ⟨jGetStr d ("id") ("board_1"), jGetStr d ("name") ("Загруженная доска"), rows, now, now⟩

/-- Modelled from the spec wording of claim C2: the flattened view in row
order then action order, keeping only enabled actions of enabled rows. -/
def getAllActionsSpec (b : TaskBoard) : List Action :=
  (b.rows.filter (fun r => r.enabled)).flatMap (fun r => r.actions.filter (fun a => a.enabled))

/-- Modelled from the spec wording of claim C9: the Chebyshev distance of two
colors (the maximum per-channel absolute difference). -/
def chebyshevDist (c other : Color) : Int :=
  max (max |c.r - other.r| |c.g - other.g|) |c.b - other.b|

/-- Modelled from the spec wording of claim C7: the major version a version
string targets is its first dot-separated component (the text before the
first dot, written over the character list so it evaluates by reduction). -/
def declaredMajor (v : String) : String :=
  ⟨v.data.takeWhile (fun c => c ≠ '.')⟩

/-! ## Theorems -/

theorem get_all_actions_foldl_acc (rows : List TaskRow) (acc : List Action) :
    rows.foldl
        (fun acc row =>
          if row.enabled then acc ++ row.actions.filter (fun a => a.enabled) else acc)
        acc
      = acc ++ (rows.filter (fun r => r.enabled)).flatMap
          (fun r => r.actions.filter (fun a => a.enabled)) := by
  induction rows generalizing acc with
  | nil => simp
  | cons r rs ih =>
      by_cases h : r.enabled
      · simp [h, ih, List.filter_cons, List.append_assoc]
      · simp [h, ih, List.filter_cons]

/-- C2: `TaskBoard.get_all_actions` returns exactly the enabled actions of
enabled rows, in row order and then action order within each row; actions of
disabled rows are excluded even when themselves enabled, and disabled
actions of enabled rows are excluded. -/
theorem get_all_actions_enabled_rows_and_actions (b : TaskBoard) :
    b.get_all_actions = getAllActionsSpec b
    ∧ ∀ a : Action, a ∈ b.get_all_actions ↔
        ∃ r : TaskRow, r ∈ b.rows ∧ r.enabled = true ∧ a ∈ r.actions ∧ a.enabled = true := by
  have h : b.get_all_actions = getAllActionsSpec b := by
    simpa [TaskBoard.get_all_actions, getAllActionsSpec] using
      get_all_actions_foldl_acc b.rows []
  refine ⟨h, fun a => ?_⟩
  rw [h]
  simp only [getAllActionsSpec, List.mem_flatMap, List.mem_filter]
  constructor
  · rintro ⟨r, ⟨hr, hren⟩, ha, haen⟩
    exact ⟨r, hr, hren, ha, haen⟩
  · rintro ⟨r, hr, hren, ha, haen⟩
    exact ⟨r, ⟨hr, hren⟩, ha, haen⟩

/-- C9: `Color.matches` holds iff the Chebyshev distance (the maximum
per-channel absolute difference) is at most the receiver's tolerance — a
componentwise comparison using the receiver's tolerance on all three
channels, not a Euclidean one. -/
theorem color_matches_iff_chebyshev (c other : Color) :
    c.matches other = true ↔ chebyshevDist c other ≤ c.tolerance := by
  simp only [Color.matches, chebyshevDist, Bool.and_eq_true, decide_eq_true_eq, max_le_iff]

/-- C3: with a handler dispatched, `execute_action` suspends after the
handler only for `delay_after_ms - elapsed` and only when that remainder is
positive; a handler that ran at least `delay_after_ms` causes zero
additional suspension. -/
theorem execute_action_delay_after_compensation (reg : Registry) (elapsed : ℚ)
    (σ : EngineState) (a : Action) (hFn : HandlerFn)
    (hen : a.enabled = true) (hreg : reg a.action_type = some hFn)
    (hd : 0 < a.delay_after_ms) :
    ((ExecutionEngine.execute_action reg elapsed σ a).slept
      = (if 0 < a.delay_before_ms then [(a.delay_before_ms : ℚ)] else [])
        ++ (if 0 < (a.delay_after_ms : ℚ) - elapsed
            then [(a.delay_after_ms : ℚ) - elapsed] else []))
    ∧ ((a.delay_after_ms : ℚ) ≤ elapsed →
        (ExecutionEngine.execute_action reg elapsed σ a).slept
          = (if 0 < a.delay_before_ms then [(a.delay_before_ms : ℚ)] else [])) := by
  have hmain : (ExecutionEngine.execute_action reg elapsed σ a).slept
      = (if 0 < a.delay_before_ms then [(a.delay_before_ms : ℚ)] else [])
        ++ (if 0 < (a.delay_after_ms : ℚ) - elapsed
            then [(a.delay_after_ms : ℚ) - elapsed] else []) := by
    simp only [ExecutionEngine.execute_action, hen, Bool.not_true, Bool.false_eq_true,
      if_false, hreg, preciseSleepLog]
    split_ifs <;> simp_all <;> try linarith
  refine ⟨hmain, fun hle => ?_⟩
  rw [hmain,
    if_neg (show ¬ 0 < (a.delay_after_ms : ℚ) - elapsed by linarith),
    List.append_nil]

def wHandler : HandlerFn := fun a vars => (⟨true, a.id, a.name, "", none⟩, vars)

def wReg3 : Registry := fun _ => some wHandler

def wAct3 : Action :=
  { id := "a3", action_type := .WAIT_TIME, name := "w", delay_after_ms := 3 }

def wState : EngineState := ⟨true, [], []⟩

/-- C3 witness: a handler measured at 5 ms with `delay_after_ms = 3` causes
zero additional suspension. -/
theorem execute_action_delay_after_compensation_witness :
    (ExecutionEngine.execute_action wReg3 5 wState wAct3).slept = [] := by
  have h := execute_action_delay_after_compensation wReg3 5 wState wAct3 wHandler
    rfl rfl (by decide)
  have h2 := h.2 (by decide)
  simpa using h2

/-- C1 (amended): at every live iteration boundary of the run loop (running,
no break requested), a positive `_skip_next_count` is decremented and the
action skipped with the results list unchanged; otherwise, when the registry
has a handler, exactly one Result for the action is appended, and when the
registry has no handler, `execute_action` returns a failure Result whose
error states that no handler was found for the kind — but that Result is
NOT appended to the engine's results list. -/
theorem board_loop_step_result_discipline (reg : Registry) (els : Nat → ℚ)
    (σ : EngineState) (i : Nat) (a : Action) (rest : List Action)
    (hrun : σ.is_running = true)
    (hbrk : engineBreakRequested σ.vars = false) :
    (0 < engineSkipCount σ.vars →
       ExecutionEngine.board_loop reg els σ i (a :: rest)
         = ExecutionEngine.board_loop reg els
             ⟨σ.is_running,
              alistSet σ.vars ("_skip_next_count") (.j (.int (engineSkipCount σ.vars - 1))),
              σ.results⟩ (i + 1) rest)
    ∧ (engineSkipCount σ.vars ≤ 0 →
        (ExecutionEngine.board_loop reg els σ i (a :: rest)
           = ExecutionEngine.board_loop reg els
               (ExecutionEngine.execute_action reg (els i) σ a).state (i + 1) rest)
        ∧ (∀ hFn : HandlerFn, reg a.action_type = some hFn → a.enabled = true →
             (ExecutionEngine.execute_action reg (els i) σ a).state.results
               = σ.results ++ [(ExecutionEngine.execute_action reg (els i) σ a).result])
        ∧ (reg a.action_type = none → a.enabled = true →
             (ExecutionEngine.execute_action reg (els i) σ a).state.results = σ.results
             ∧ (ExecutionEngine.execute_action reg (els i) σ a).result.success = false
             ∧ (ExecutionEngine.execute_action reg (els i) σ a).result.error
                 = some ("Обработчик для ActionType." ++ a.action_type.name ++ " не найден"))) := by
  constructor
  · intro hskip
    rw [ExecutionEngine.board_loop]
    simp [hrun, hbrk, hskip]
  · intro hskip
    have hns : ¬ 0 < engineSkipCount σ.vars := by omega
    refine ⟨?_, ?_, ?_⟩
    · rw [ExecutionEngine.board_loop]
      simp [hrun, hbrk, hns]
    · intro hFn hr hen
      simp [ExecutionEngine.execute_action, hen, hr]
    · intro hr hen
      simp [ExecutionEngine.execute_action, hen, hr]

def wSkipState : EngineState := ⟨true, [], []⟩

def wActLog : Action := { id := "l1", action_type := .LOG, name := "log" }

def wRegLog : Registry := fun t =>
  match t with
  | .LOG => some wHandler
  | _ => none

/-- C1 witness: at a live boundary with zero skip count and a registered
handler, exactly the dispatched action's Result is appended. -/
theorem board_loop_step_result_discipline_witness :
    (ExecutionEngine.execute_action wRegLog 0 wSkipState wActLog).state.results
      = [(ExecutionEngine.execute_action wRegLog 0 wSkipState wActLog).result] := by
  have h := (board_loop_step_result_discipline wRegLog (fun _ => 0) wSkipState 0 wActLog []
    rfl rfl).2 (by decide)
  simpa using h.2.1 wHandler rfl rfl

def cxRegNone : Registry := fun _ => none

def cxEngPrior : EngineState :=
  ⟨false, [("stale", VarVal.j (.int 7))], [⟨true, "old", "old", "", none⟩]⟩

def cxAct : Action := { id := "a1", action_type := .MOUSE_CLICK, name := "click" }

def cxBoard : TaskBoard := ⟨"b1", "B", [⟨"r1", "R", [cxAct], true⟩], "", ""⟩

/-- C1 counterexample: the board's flattened sequence reaches its single
enabled action while the run is live and the registry has no handler for its
kind; `execute_action` produces the failure Result, but the run returns an
EMPTY results list — no Result is appended for that action, contradicting
the claim that exactly one Result (success=false, no-handler error) is
appended. -/
theorem execute_board_missing_handler_appends_nothing :
    cxBoard.get_all_actions = [cxAct]
    ∧ cxRegNone cxAct.action_type = none
    ∧ (ExecutionEngine.execute_action cxRegNone 0
         ⟨true, [("_board", VarVal.board cxBoard), ("_running", VarVal.j (.bool true))], []⟩
         cxAct).result.success = false
    ∧ (ExecutionEngine.execute_board cxRegNone (fun _ => 0) cxEngPrior cxBoard).1 = [] := by
  refine ⟨rfl, rfl, rfl, rfl⟩

/-- C4: when a live iteration dispatches an enabled CONDITIONAL action whose
condition evaluates true under an `if_true="break"` policy, the handler sets
the shared `_break_execution` flag and the loop halts at the next iteration
boundary: no action of the remaining sequence executes and the results list
ends with that conditional's (successful) Result. -/
theorem conditional_break_halts_run (reg : Registry) (els : Nat → ℚ)
    (screen : Option ScreenPort) (σ : EngineState) (i : Nat) (a : Action)
    (rest : List Action)
    (hty : a.action_type = ActionType.CONDITIONAL)
    (hreg : reg ActionType.CONDITIONAL = some (ConditionalHandler.execute screen))
    (hen : a.enabled = true)
    (hcond : ConditionalHandler.condResult screen a σ.vars = true)
    (hdec : mdGet a ("if_true") (.str ("execute_next")) = .str ("break"))
    (hrun : σ.is_running = true)
    (hbrk : engineBreakRequested σ.vars = false)
    (hskip : engineSkipCount σ.vars ≤ 0) :
    ExecutionEngine.board_loop reg els σ i (a :: rest)
      = (ExecutionEngine.execute_action reg (els i) σ a).state
    ∧ (ExecutionEngine.board_loop reg els σ i (a :: rest)).results
      = σ.results ++ [(ExecutionEngine.execute_action reg (els i) σ a).result]
    ∧ (ExecutionEngine.execute_action reg (els i) σ a).result.success = true
    ∧ alistGet (ExecutionEngine.execute_action reg (els i) σ a).state.vars
        ("_break_execution") = some (VarVal.j (.bool true)) := by
  have hregA : reg a.action_type = some (ConditionalHandler.execute screen) := by
    rw [hty]; exact hreg
  have hstate : (ExecutionEngine.execute_action reg (els i) σ a).state
      = ⟨σ.is_running, (ConditionalHandler.execute screen a σ.vars).2,
         σ.results ++ [(ConditionalHandler.execute screen a σ.vars).1]⟩ := by
    simp [ExecutionEngine.execute_action, hen, hregA]
  have hres : (ExecutionEngine.execute_action reg (els i) σ a).result
      = (ConditionalHandler.execute screen a σ.vars).1 := by
    simp [ExecutionEngine.execute_action, hen, hregA]
  have hout2 : (ConditionalHandler.execute screen a σ.vars).2
      = alistSet σ.vars ("_break_execution") (.j (.bool true)) := by
    simp +decide [ConditionalHandler.execute, hcond, hdec, JVal.eqStr]
  have hsucc : (ConditionalHandler.execute screen a σ.vars).1.success = true := by
    simp [ConditionalHandler.execute]
  have hns : ¬ 0 < engineSkipCount σ.vars := by omega
  have hstep : ExecutionEngine.board_loop reg els σ i (a :: rest)
      = ExecutionEngine.board_loop reg els
          (ExecutionEngine.execute_action reg (els i) σ a).state (i + 1) rest := by
    rw [ExecutionEngine.board_loop]
    simp [hrun, hbrk, hns]
  have hrun2 : (ExecutionEngine.execute_action reg (els i) σ a).state.is_running = true := by
    rw [hstate]; exact hrun
  have hbrk2 : engineBreakRequested
      (ExecutionEngine.execute_action reg (els i) σ a).state.vars = true := by
    rw [hstate]
    simp [engineBreakRequested, hout2, alistGet_set_self, VarVal.truthy, JVal.truthy]
  have hhalt : ExecutionEngine.board_loop reg els
      (ExecutionEngine.execute_action reg (els i) σ a).state (i + 1) rest
      = (ExecutionEngine.execute_action reg (els i) σ a).state := by
    cases rest with
    | nil => rw [ExecutionEngine.board_loop]
    | cons b bs =>
        rw [ExecutionEngine.board_loop]
        simp [hrun2, hbrk2]
  refine ⟨hstep.trans hhalt, ?_, ?_, ?_⟩
  · rw [hstep, hhalt, hstate, hres]
  · rw [hres]; exact hsucc
  · rw [hstate]
    simpa [hout2] using alistGet_set_self σ.vars ("_break_execution") (VarVal.j (.bool true))

def wCondAct : Action :=
  { id := "c1", action_type := .CONDITIONAL, name := "cond",
    metadata := [("condition_type", .str ("variable_equals")),
                 ("variable_name", .str ("flag")),
                 ("condition_value", .str ("1")),
                 ("if_true", .str ("break"))] }

def wAfterAct : Action := { id := "c2", action_type := .LOG, name := "after" }

def wCondState : EngineState := ⟨true, [("flag", VarVal.j (.str ("1")))], []⟩

def wRegCond : Registry := fun t =>
  match t with
  | .CONDITIONAL => some (ConditionalHandler.execute none)
  | _ => none

/-- C4 witness: a concrete conditional with a true variable_equals condition
and `if_true="break"` ends the run's results list at its own Result, with a
further action pending after it. -/
theorem conditional_break_halts_run_witness :
    (ExecutionEngine.board_loop wRegCond (fun _ => 0) wCondState 0
        [wCondAct, wAfterAct]).results
      = [(ExecutionEngine.execute_action wRegCond 0 wCondState wCondAct).result] := by
  have h := conditional_break_halts_run wRegCond (fun _ => 0) none wCondState 0 wCondAct
    [wAfterAct] rfl rfl rfl rfl rfl rfl rfl (by decide)
  simpa using h.2.1

/-- C10: `execute_board` resets all per-run state on entry — the returned
results and the final engine state are independent of the engine's prior
state, the loop starts from variables seeded with exactly `_board` and
`_running` and an empty results list, and after the call the running flag is
lowered and `_running` is False. -/
theorem execute_board_fresh_state_and_final_flags (reg : Registry) (els : Nat → ℚ)
    (e e' : EngineState) (b : TaskBoard) :
    ExecutionEngine.execute_board reg els e b = ExecutionEngine.execute_board reg els e' b
    ∧ (ExecutionEngine.execute_board reg els e b).2.is_running = false
    ∧ alistGet (ExecutionEngine.execute_board reg els e b).2.vars ("_running")
        = some (VarVal.j (.bool false))
    ∧ (ExecutionEngine.execute_board reg els e b).1
        = (ExecutionEngine.board_loop reg els
            ⟨true, [("_board", VarVal.board b), ("_running", VarVal.j (.bool true))], []⟩
            0 b.get_all_actions).results := by
  refine ⟨rfl, rfl, ?_, rfl⟩
  simpa [ExecutionEngine.execute_board] using
    alistGet_set_self (ExecutionEngine.board_loop reg els
      ⟨true, [("_board", VarVal.board b), ("_running", VarVal.j (.bool true))], []⟩
      0 b.get_all_actions).vars ("_running") (VarVal.j (.bool false))

theorem run_row_fold_filter (reg : Registry) (l : List Action) (vs : Variables) :
    l.foldl
        (fun vs ra =>
          if ra.enabled then
            match reg ra.action_type with
            | some h => (h ra vs).2
            | none => vs
          else vs)
        vs
      = (l.filter (fun x => x.enabled)).foldl
          (fun vs ra =>
            match reg ra.action_type with
            | some h => (h ra vs).2
            | none => vs)
          vs := by
  induction l generalizing vs with
  | nil => rfl
  | cons x xs ih =>
      by_cases h : x.enabled
      · simp [List.filter_cons, h, ih]
      · simp [List.filter_cons, h, ih]

/-- C5: `RunRowHandler.execute` resolves the row whose id equals the
metadata row_id in the shared `_board`; a missing board, a missing row and a
disabled row each produce a failure Result (leaving the shared variables
untouched), while an enabled row makes the handler dispatch each enabled
action of the row, in order, through the same registry over the same shared
variables (sub-results discarded) and return a success Result. -/
theorem run_row_handler_spec (reg : Registry) (a : Action) (vars : Variables) :
    (alistGet vars ("_board") = none →
       RunRowHandler.execute reg a vars
         = (⟨false, a.id, a.name, "", some ("Доска не доступна для запуска строки")⟩, vars))
    ∧ (∀ b : TaskBoard, alistGet vars ("_board") = some (VarVal.board b) →
        (b.rows.find? (fun r => (mdGet a ("row_id") (.str (""))).eqStr r.id) = none →
           (RunRowHandler.execute reg a vars).1.success = false
           ∧ (RunRowHandler.execute reg a vars).2 = vars)
        ∧ (∀ tr : TaskRow,
             b.rows.find? (fun r => (mdGet a ("row_id") (.str (""))).eqStr r.id) = some tr →
             (tr.enabled = false →
                (RunRowHandler.execute reg a vars).1.success = false
                ∧ (RunRowHandler.execute reg a vars).2 = vars)
             ∧ (tr.enabled = true →
                RunRowHandler.execute reg a vars
                  = (⟨true, a.id, a.name, "Строка " ++ tr.name ++ " выполнена", none⟩,
                     (tr.actions.filter (fun x => x.enabled)).foldl
                       (fun vs ra =>
                         match reg ra.action_type with
                         | some h => (h ra vs).2
                         | none => vs)
                       vars)))) := by
  refine ⟨?_, ?_⟩
  · intro h
    simp [RunRowHandler.execute, h]
  · intro b hb
    refine ⟨?_, fun tr htr => ⟨?_, ?_⟩⟩
    · intro hnone
      simp [RunRowHandler.execute, hb, hnone]
    · intro hdis
      simp [RunRowHandler.execute, hb, htr, hdis]
    · intro hen
      rw [show RunRowHandler.execute reg a vars
            = (⟨true, a.id, a.name, "Строка " ++ tr.name ++ " выполнена", none⟩,
               tr.actions.foldl
                 (fun vs ra =>
                   if ra.enabled then
                     match reg ra.action_type with
                     | some h => (h ra vs).2
                     | none => vs
                   else vs)
                 vars)
          from by simp [RunRowHandler.execute, hb, htr, hen]]
      rw [run_row_fold_filter]

def wRunRowAct : Action :=
  { id := "rr", action_type := .RUN_ROW, name := "call",
    metadata := [("row_id", .str ("rX"))] }

/-- C5 witness: with no `_board` in the shared variables, the handler reports
failure without raising and leaves the variables untouched. -/
theorem run_row_handler_spec_witness :
    RunRowHandler.execute cxRegNone wRunRowAct []
      = (⟨false, "rr", "call", "", some ("Доска не доступна для запуска строки")⟩, []) := by
  exact (run_row_handler_spec cxRegNone wRunRowAct []).1 rfl

/-- C6: when a resolved script path is neither the resolved allowed root nor
inside it, `execute_file` immediately returns a failed result in mode
"none" whose only diagnostic states the path is outside the allowed root,
and the parser is never invoked (second component false). -/
theorem execute_file_containment_check (path root : List String) (script : AhkScript)
    (w : Bool) (proceed : AhkScript → List AhkDiagnostic → AhkExecutionResult)
    (hout : root ∉ pathParents path) (hne : path ≠ root) :
    AhkRunner.execute_file path (some root) script w proceed
      = (⟨false, "none", 0, "", "",
          [⟨"error", "Path outside allowed root: " ++ pathPyStr path, 0⟩]⟩, false) := by
  simp [AhkRunner.execute_file, hout, hne]

def wScript : AhkScript := {}

/-- C6 witness: /home/user/s.ahk is outside the allowed root /opt, so the
run fails in mode "none" with the containment diagnostic and no parse. -/
theorem execute_file_containment_check_witness :
    AhkRunner.execute_file ["home", "user", "s.ahk"] (some ["opt"]) wScript true
        (fun _ _ => ⟨true, "emulated", 0, "", "", []⟩)
      = (⟨false, "none", 0, "", "",
          [⟨"error", "Path outside allowed root: /home/user/s.ahk", 0⟩]⟩, false) := by
  have h := execute_file_containment_check ["home", "user", "s.ahk"] ["opt"] wScript true
    (fun _ _ => ⟨true, "emulated", 0, "", "", []⟩) (by decide) (by decide)
  exact h.trans (by decide)

theorem cmd_diag_levels (w : Bool) (cmds : List AhkCommand) (d : AhkDiagnostic)
    (hd : d ∈ cmds.flatMap (fun cmd =>
      (if POTENTIALLY_DANGEROUS.contains cmd.name then
         [⟨"warning", "Potentially dangerous command: " ++ cmd.name, cmd.line_no⟩]
       else [])
      ++ (if WINDOWS_ONLY_COMMANDS.contains cmd.name && !w then
            [⟨"info", "Windows-specific command: " ++ cmd.name, cmd.line_no⟩]
          else []))) :
    d.level = "warning" ∨ d.level = "info" := by
  simp only [List.mem_flatMap] at hd
  obtain ⟨cmd, -, hmem⟩ := hd
  rcases List.mem_append.mp hmem with h | h <;> split_ifs at h <;> simp_all

/-- C7 (amended): validation warns when no version directive is present (and
the result is then valid, since command diagnostics are never errors),
reports an error when the declared version does not start with "2" (a
prefix check on the version string, not a parse of its major component),
and `is_valid` is false iff some emitted diagnostic has level error. -/
theorem validate_version_and_error_gating (w : Bool) (s : AhkScript) :
    (s.requires = none →
       (⟨"warning", "Missing #Requires AutoHotkey v2.0 directive", 0⟩ : AhkDiagnostic)
           ∈ (AhkValidator.validate w s).diagnostics
       ∧ (AhkValidator.validate w s).is_valid = true)
    ∧ (∀ v, s.requires = some v → pyStartsWith v ("2") = false →
        (⟨"error", "Unsupported AHK version: " ++ v, 0⟩ : AhkDiagnostic)
            ∈ (AhkValidator.validate w s).diagnostics)
    ∧ ((AhkValidator.validate w s).is_valid = false ↔
        ∃ d ∈ (AhkValidator.validate w s).diagnostics, d.level = "error") := by
  refine ⟨?_, ?_, ?_⟩
  · intro h
    constructor
    · simp [AhkValidator.validate, h]
    · simp only [AhkValidator.validate, h, Bool.not_eq_true', List.any_eq_false,
        decide_eq_true_eq]
      intro d hd
      rcases List.mem_append.mp hd with hl | hr
      · simp only [List.mem_singleton] at hl
        subst hl
        simp
      · rcases cmd_diag_levels w _ d hr with h1 | h1 <;> simp [h1]
  · intro v hv hpre
    simp [AhkValidator.validate, hv, hpre]
  · simp only [AhkValidator.validate, Bool.not_eq_false', List.any_eq_true,
      decide_eq_true_eq]

def script20 : AhkScript := { requires := some ("20.1") }

/-- C7 counterexample: the declared version "20.1" does not target major
version 2 (its major component is "20"), yet validation emits no diagnostic
at all and reports the script valid, because the source only checks the
prefix "2". -/
theorem validate_accepts_nonmajor2_prefix :
    declaredMajor ("20.1") ≠ "2"
    ∧ (AhkValidator.validate true script20).diagnostics = []
    ∧ (AhkValidator.validate true script20).is_valid = true := by
  refine ⟨by decide, rfl, rfl⟩

def script11 : AhkScript := { requires := some ("1.1") }

/-- C7 witness: version "1.1" yields the unsupported-version error
diagnostic and an invalid result. -/
theorem validate_version_and_error_gating_witness :
    (⟨"error", "Unsupported AHK version: 1.1", 0⟩ : AhkDiagnostic)
        ∈ (AhkValidator.validate true script11).diagnostics
    ∧ (AhkValidator.validate true script11).is_valid = false := by
  have h := validate_version_and_error_gating true script11
  refine ⟨?_, ?_⟩
  · simpa using h.2.1 ("1.1") rfl (by decide)
  · exact (h.2.2).mpr ⟨⟨"error", "Unsupported AHK version: 1.1", 0⟩, by decide, rfl⟩

theorem Action.from_to_dict (a : Action) : Action.from_dict a.to_dict = some a := by
  rcases a with ⟨id, t, nm, en, db, da, rc, co, col, key, mb, md⟩
  cases co <;> cases col <;> cases key <;>
    simp +decide [Action.to_dict, Action.from_dict, alistGet, jGetStr, jGetBool, jGetInt,
      Coordinates.to_dict, Coordinates.from_dict, Color.to_dict, Color.ofKwargs,
      ActionType.ofName_name, JVal.truthy, Option.bind]

theorem optionMapList_map_roundtrip {α β : Type} (f : α → β) (g : β → Option α)
    (h : ∀ x, g (f x) = some x) (xs : List α) :
    optionMapList g (xs.map f) = some xs := by
  induction xs with
  | nil => rfl
  | cons x xs ih => simp [optionMapList, h, ih, Option.bind]

theorem TaskRow.load_to_dict (r : TaskRow) :
    BackendApplication.load_row (.dict r.to_dict) = some r := by
  rcases r with ⟨id, nm, acts, en⟩
  simp +decide [BackendApplication.load_row, TaskRow.to_dict, alistGet, jGetStr, jGetBool,
    Option.bind,
    optionMapList_map_roundtrip (fun a => JVal.dict a.to_dict)
      (fun x => match x with
                | JVal.dict af => Action.from_dict af
                | _ => none)
      (fun a => Action.from_to_dict a) acts]

/-- C8: serialization round-trips.  `Action.from_dict (a.to_dict) = a` for
every action (every action's kind name is a valid enumeration member), and
loading back a saved board document reconstructs a board with the same id,
name and rows — same row ids, names, enabled flags and order, and
field-identical actions — with only the creation/modification timestamps
replaced by the load-time clock value. -/
theorem serialization_round_trip :
    (∀ a : Action, Action.from_dict a.to_dict = some a)
    ∧ ∀ (b : TaskBoard) (now : String),
        BackendApplication.load_board now (BackendApplication.save_board b)
          = some ⟨b.id, b.name, b.rows, now, now⟩ := by
  refine ⟨Action.from_to_dict, fun b now => ?_⟩
  rcases b with ⟨id, nm, rows, ca, ma⟩
  simp +decide [BackendApplication.load_board, BackendApplication.save_board,
    TaskBoard.to_dict, alistSet, alistGet, jGetStr, Option.bind,
    optionMapList_map_roundtrip (fun r => JVal.dict r.to_dict) BackendApplication.load_row
      TaskRow.load_to_dict rows]

end AHK
